import Mathlib

/-!
Shallow embedding of the go-storage runtime core (driver registry, manager,
batch executor, config resolution, retry helper), translated from the Go
sources `storage.go`, `config.go`, `setup.go`, `helpers.go` and the batch
file (`src/unnamed/part_007`).  Machine integers in the modelled code never
overflow on the modelled paths, so Go `int` is rendered as `Nat`/`Int`;
Go's `(T, error)` returns become `Except String T`; Go `panic` becomes an
explicit `panicked` outcome constructor.  Backend references (Go interface
values) are modelled as natural-number identities: two distinct factory
invocations yield distinct identities, the same cached value yields the
same identity.
-/

namespace GoStorage

/-- Model of Go dynamic values (`any`) as they occur in configuration maps:
strings, integers, booleans, nested string-keyed maps, and nil. -/
inductive GoVal where
  | str (s : String)
  | int (n : Int)
  | boolean (b : Bool)
  | map (kvs : List (String × GoVal))
  | null

/-- Model of Go `map[string]any`, determinized as an association list
(first binding wins, mirroring unique keys of a Go map). -/
abbrev GoMap := List (String × GoVal)

/-- Association-list lookup, modelling Go map indexing `m[k]`. -/
def lookupGo {α : Type} (m : List (String × α)) (k : String) : Option α :=
  match m.find? (fun kv => kv.1 == k) with
  | some kv => some kv.2
  | none => none

/-- Go type assertion `v.(map[string]any)`. -/
def GoVal.asMap : GoVal → Option GoMap
  | .map kvs => some kvs
  | _ => none

/-- Go type assertion `v.(string)`. -/
def GoVal.asStr : GoVal → Option String
  | .str s => some s
  | _ => none

/-- `StorageConfig` from `config.go`: a single disk entry with its driver
name and its options map. -/
structure StorageConfig where
  Driver : String
  Options : GoMap

/-- `Config` from `config.go`: the resolved configuration, a default disk
name plus the per-disk entries. -/
structure Config where
  Default : String
  Storages : List (String × StorageConfig)

/-- One disk entry of `parseConfigMap` (`setup.go` lines 85-103): the entry
must carry a string `driver` key; every other key becomes an option. -/
def parseDisk (name : String) (disk : GoMap) : Except String StorageConfig :=
  match (lookupGo disk "driver").bind GoVal.asStr with
  | some d => .ok { Driver := d, Options := disk.filter (fun kv => kv.1 != "driver") }
  | none => .error ("storage: disk " ++ name ++ " missing driver")

/-- The loop of `parseConfigMap` over the disk entries (`setup.go` lines
79-104): non-map entries are skipped with `continue`, a missing driver
aborts with an error. -/
def parseDisks : List (String × GoVal) → Except String (List (String × StorageConfig))
  | [] => .ok []
  | (name, diskRaw) :: rest =>
    match diskRaw.asMap with
    | none => parseDisks rest
    | some disk =>
      match parseDisk name disk with
      | .error e => .error e
      | .ok sc =>
        match parseDisks rest with
        | .error e => .error e
        | .ok tail => .ok ((name, sc) :: tail)

/-- `parseConfigMap` from `setup.go` lines 57-107: reads `default`, accepts
`disks` or `storages` as the collection key, and resolves each disk entry. -/
def parseConfigMap (m : GoMap) : Except String Config :=
  let dflt : String :=
    match (lookupGo m "default").bind GoVal.asStr with
    | some d => d
    | none => ""
  let disksRaw : Option GoMap :=
    match (lookupGo m "disks").bind GoVal.asMap with
    | some d => some d
    | none => (lookupGo m "storages").bind GoVal.asMap
  match disksRaw with
  | none => .error "storage: no disks or storages found in config"
  | some disks =>
    match parseDisks disks with
    | .error e => .error e
    | .ok scs => .ok { Default := dflt, Storages := scs }

/-- A backend reference identity (a Go `Storage` interface value); distinct
constructions carry distinct numbers. -/
abbrev Backend := Nat

/-- `Driver` from `storage.go` line 164: a factory from an options map to a
backend or an error. -/
abbrev Driver := GoMap → Except String Backend

/-- Outcome of `Register` (`storage.go` lines 173-183): the Go function
returns nothing and panics on misuse, so the model distinguishes the
updated registry from a panic with its message. -/
inductive RegOutcome where
  | ok (reg : List (String × Driver))
  | panicked (msg : String)

/-- `Register` from `storage.go` lines 173-183: panics on a nil driver,
panics if the name is already bound, otherwise adds the binding. -/
def Register (drivers : List (String × Driver)) (name : String)
    (driver : Option Driver) : RegOutcome :=
  match driver with
  | none => .panicked "storage: Register driver is nil"
  | some d =>
    if (drivers.find? (fun kv => kv.1 == name)).isSome then
      .panicked ("storage: Register called twice for driver " ++ name)
    else
      .ok (drivers ++ [(name, d)])

/-- Registry lookup `drivers[driverName]` as performed inside `Open`
(`storage.go` lines 198-200). -/
def lookupDriver (drivers : List (String × Driver)) (name : String) : Option Driver :=
  lookupGo drivers name

/-- `Open` from `storage.go` lines 197-205: looks the driver up and, when
found, invokes the factory on the options map. -/
def Open (drivers : List (String × Driver)) (driverName : String) (cfg : GoMap) :
    Except String Backend :=
  match lookupDriver drivers driverName with
  | none => .error ("storage: unknown driver " ++ driverName ++ " (forgotten import?)")
  | some d => d cfg

/-- `Manager` from `config.go` lines 221-225: the resolved config plus the
cache of constructed backends.  The `sync.RWMutex` makes each cache read and
the whole construction section atomic; the sequential model below renders
each `Disk` call as one atomic step (the interleaved model for first-time
construction is `stepOnce`/`runSched` further down). -/
structure Manager where
  config : Config
  storages : List (String × Backend)

/-- `NewManager` from `config.go` lines 228-233. -/
def NewManager (cfg : Config) : Manager :=
  { config := cfg, storages := [] }

/-- `Manager.Disk` from `config.go` lines 237-274.  The second component
counts factory invocations performed by this call (0 or 1).  Error returns
leave the manager unchanged (the Go method mutates nothing on those paths). -/
def Manager.Disk (drivers : List (String × Driver)) (m : Manager) (name : String) :
    Except String (Backend × Manager) × Nat :=
  let name := if name = "" then m.config.Default else name
  if name = "" then
    (.error "storage: no default storage configured", 0)
  else
    match lookupGo m.storages name with
    | some s => (.ok (s, m), 0)
    | none =>
      match lookupGo m.config.Storages name with
      | none => (.error ("storage: disk " ++ name ++ " not configured"), 0)
      | some cfg =>
        match lookupDriver drivers cfg.Driver with
        | none =>
          (.error ("storage: unknown driver " ++ cfg.Driver ++ " (forgotten import?)"), 0)
        | some d =>
          match d cfg.Options with
          | .error e => (.error ("storage: failed to open disk " ++ name ++ ": " ++ e), 1)
          | .ok s =>
            (.ok (s, { m with storages := m.storages ++ [(name, s)] }), 1)

/-- State transition of one `Disk` call as seen by later calls: on success
the updated manager, on error the unchanged one. -/
def callDisk (drivers : List (String × Driver)) (m : Manager) (name : String) : Manager :=
  match (Manager.Disk drivers m name).1 with
  | .ok (_, m2) => m2
  | .error _ => m

/-- A sequence of intervening `Disk` calls against the same manager. -/
def runCalls (drivers : List (String × Driver)) (m : Manager) (calls : List String) : Manager :=
  calls.foldl (fun acc n => callDisk drivers acc n) m

/-- `Setup` from `setup.go` lines 37-46, acting on the process-wide default
manager holder `defaultMgr`: parse first, and only on success replace the
holder. -/
def Setup (defaultMgr : Option Manager) (cfg : GoMap) :
    Except String Unit × Option Manager :=
  match parseConfigMap cfg with
  | .error e => (.error e, defaultMgr)
  | .ok c => (.ok (), some (NewManager c))

/-! ### Interleaved model of first-time construction in `Manager.Disk`

`Manager.Disk` (`config.go` lines 237-274) uses double-checked locking: an
`RLock`-protected cache read (one atomic step, since the lock makes the map
read consistent), then a `Lock`-protected section that re-checks the cache,
constructs via the factory, and stores the result (one atomic step, since
the mutex serializes the whole section).  Each concurrent caller for a
fixed not-yet-constructed name therefore runs the two-step program below;
an execution is an arbitrary interleaving (schedule) of callers' steps. -/

/-- Shared state for concurrent first-time resolution of one disk name: the
cache slot for that name and the count of factory invocations.  A freshly
constructed backend gets identity `invocations`, so two constructions would
yield two distinct references. -/
structure OnceState where
  cache : Option Backend
  invocations : Nat

/-- Control position of one caller inside `Manager.Disk`: before the
read-locked cache check, before the write-locked section, or returned with
a backend reference. -/
inductive Phase where
  | start
  | locked
  | done (b : Backend)

/-- Whether a caller has returned. -/
def Phase.isDone : Phase → Bool
  | .done _ => true
  | _ => false

/-- One atomic step of one caller of `Manager.Disk` for the fixed name:
the read-locked fast path (`config.go` lines 246-251) or the write-locked
re-check-and-construct section (`config.go` lines 254-273). -/
def stepOnce (st : OnceState) : Phase → OnceState × Phase
  | .start =>
    match st.cache with
    | some b => (st, .done b)
    | none => (st, .locked)
  | .locked =>
    match st.cache with
    | some b => (st, .done b)
    | none =>
      ({ cache := some st.invocations, invocations := st.invocations + 1 },
       .done st.invocations)
  | .done b => (st, .done b)

/-- One scheduler step: run one atomic step of caller `i` (out-of-range
indices leave the system unchanged). -/
def stepSys (s : OnceState × List Phase) (i : Nat) : OnceState × List Phase :=
  match s.2.get? i with
  | none => s
  | some p =>
    let r := stepOnce s.1 p
    (r.1, s.2.set i r.2)

/-- Run a schedule (a list of caller indices) from the initial state in
which the name was never constructed and all `n` callers are about to call
`Manager.Disk`. -/
def runSched (n : Nat) (sched : List Nat) : OnceState × List Phase :=
  sched.foldl stepSys ({ cache := none, invocations := 0 }, List.replicate n .start)

/-! ### Batch executor (`src/unnamed/part_007` lines 293-448)

`BatchUpload`/`BatchDelete` admit items in input order; per item the Go code
runs `select` between `ctx.Done()` and acquiring a semaphore slot.  When the
context is not cancelled only the semaphore branch can fire (the admission
blocks until a slot frees, which always happens since admitted goroutines
terminate); when the context is cancelled Go chooses uniformly among the
ready branches, so the model takes an oracle `sel` resolving that choice
per item (`sel i = true` means the `ctx.Done()` branch is taken; it also
covers the case where the semaphore was full at that instant).  Admitted
operations always run to completion; completions append to the shared
result lists under a mutex in scheduler-dependent order, which the model
determinizes to input order — the properties proved below (cardinalities,
memberships, invocation multisets) are invariant under that choice.  The
`concurrency` argument only sizes the semaphore, i.e. bounds how many
admitted operations are in flight at once; it does not influence how any
item is classified, so it is threaded through unused. -/

/-- `BatchUploadItem` from the batch file: the per-item key (the reader and
upload options only influence the outcome of the upload operation, which is
abstracted as a function of the item). -/
structure BatchUploadItem where
  Key : String

/-- `UploadResult` (`storage.go` lines 108-114), reduced to the key: the
remaining metadata fields play no role in the batch logic. -/
structure UploadResult where
  Key : String

/-- `BatchError` from the batch file: key plus error message. -/
structure BatchError where
  Key : String
  Err : String

/-- `BatchUploadResult` from the batch file. -/
structure BatchUploadResult where
  Succeeded : List UploadResult
  Failed : List BatchError

/-- `BatchDeleteResult` from the batch file. -/
structure BatchDeleteResult where
  Succeeded : List String
  Failed : List BatchError

/-- The message of `ctx.Err()` for a cancelled Go context. -/
def ctxCanceled : String := "context canceled"

/-- Admission loop of `BatchUpload` (batch file lines 333-357) at item
index `i`: a cancelled-and-chosen `ctx.Done()` branch classifies the item
as failed with the cancellation error without invoking the operation;
otherwise the upload runs and is classified by its outcome.  The second
component lists the keys for which the upload operation was invoked. -/
def batchUploadLoop (ctxDone sel : Nat → Bool)
    (upload : BatchUploadItem → Except String UploadResult) :
    Nat → List BatchUploadItem → BatchUploadResult × List String
  | _, [] => (⟨[], []⟩, [])
  | i, item :: rest =>
    let r := batchUploadLoop ctxDone sel upload (i + 1) rest
    if ctxDone i && sel i then
      (⟨r.1.Succeeded, ⟨item.Key, ctxCanceled⟩ :: r.1.Failed⟩, r.2)
    else
      match upload item with
      | .ok res => (⟨res :: r.1.Succeeded, r.1.Failed⟩, item.Key :: r.2)
      | .error e => (⟨r.1.Succeeded, ⟨item.Key, e⟩ :: r.1.Failed⟩, item.Key :: r.2)

/-- `BatchUpload` from the batch file lines 322-361. -/
def BatchUpload (ctxDone sel : Nat → Bool)
    (upload : BatchUploadItem → Except String UploadResult)
    (items : List BatchUploadItem) (concurrency : Int) :
    BatchUploadResult × List String :=
  batchUploadLoop ctxDone sel upload 0 items

/-- Admission loop of `BatchDelete` (batch file lines 381-405), mirroring
`batchUploadLoop` for delete operations on keys. -/
def batchDeleteLoop (ctxDone sel : Nat → Bool)
    (deleteOp : String → Except String Unit) :
    Nat → List String → BatchDeleteResult × List String
  | _, [] => (⟨[], []⟩, [])
  | i, key :: rest =>
    let r := batchDeleteLoop ctxDone sel deleteOp (i + 1) rest
    if ctxDone i && sel i then
      (⟨r.1.Succeeded, ⟨key, ctxCanceled⟩ :: r.1.Failed⟩, r.2)
    else
      match deleteOp key with
      | .ok _ => (⟨key :: r.1.Succeeded, r.1.Failed⟩, key :: r.2)
      | .error e => (⟨r.1.Succeeded, ⟨key, e⟩ :: r.1.Failed⟩, key :: r.2)

/-- `BatchDelete` from the batch file lines 370-409. -/
def BatchDelete (ctxDone sel : Nat → Bool)
    (deleteOp : String → Except String Unit)
    (keys : List String) (concurrency : Int) :
    BatchDeleteResult × List String :=
  batchDeleteLoop ctxDone sel deleteOp 0 keys

/-- `FileInfo` (`storage.go` lines 60-67), reduced to the key: `DeleteAll`
reads only `f.Key` from listed files. -/
structure FileInfo where
  Key : String

/-- `ListResult` from `storage.go` lines 70-74. -/
structure ListResult where
  Files : List FileInfo
  NextMarker : String
  IsTruncated : Bool

/-- `ErrNotImplemented` from the errors file (`src/unnamed/part_008`). -/
def ErrNotImplemented : String := "storage: not implemented"

/-- The storage value handed to `DeleteAll`: its delete operation, and its
`List` capability when the dynamic type also implements `AdvancedStorage`
(`none` models a backend without the capability).  The listing function
receives the prefix and the effective `ListOptions.Marker` value (`""` on
the first call, where the Go code passes no `WithMarker` option and the
zero value applies; `MaxKeys` is the constant 1000 and is absorbed into the
function). -/
structure StorageModel where
  deleteOp : String → Except String Unit
  advList : Option (String → String → Except String ListResult)

/-- Pagination loop of `DeleteAll` (batch file lines 420-441), gathering
`f.Key` of every page until `IsTruncated` is false.  The Go loop has no
bound, so the model carries fuel; `none` models an execution that has not
finished within the fuel (the theorems supply sufficient fuel). -/
def listLoop (listFn : String → Except String ListResult) :
    Nat → String → List String → Option (Except String (List String))
  | 0, _, _ => none
  | fuel + 1, marker, acc =>
    match listFn marker with
    | .error e => some (.error e)
    | .ok r =>
      let acc2 := acc ++ r.Files.map (fun f => f.Key)
      if r.IsTruncated then listLoop listFn fuel r.NextMarker acc2
      else some (.ok acc2)

/-- `DeleteAll` from the batch file lines 413-448: requires the
`AdvancedStorage` capability, collects all keys across pages, then runs a
single `BatchDelete` pass (short-circuiting when no key matched). -/
def DeleteAll (ctxDone sel : Nat → Bool) (st : StorageModel) (pfx : String)
    (concurrency : Int) (fuel : Nat) :
    Option (Except String (BatchDeleteResult × List String)) :=
  match st.advList with
  | none => some (.error ErrNotImplemented)
  | some listFn =>
    match listLoop (listFn pfx) fuel "" [] with
    | none => none
    | some (.error e) => some (.error e)
    | some (.ok allKeys) =>
      if allKeys.isEmpty then some (.ok (⟨[], []⟩, []))
      else some (.ok (BatchDelete ctxDone sel st.deleteOp allKeys concurrency))

/-- Description of a paginated backend listing: calling the listing with
the given marker yields the first page; all pages but the last are
truncated and chain through `NextMarker`; the last page is not truncated. -/
def PaginatedBy (listFn : String → Except String ListResult) :
    String → List ListResult → Prop
  | _, [] => False
  | m, [p] => listFn m = .ok p ∧ p.IsTruncated = false
  | m, p :: q :: rest =>
    listFn m = .ok p ∧ p.IsTruncated = true ∧ PaginatedBy listFn p.NextMarker (q :: rest)

/-- The keys of a list of pages, in page order. -/
def pageKeys (ps : List ListResult) : List String :=
  (ps.map (fun p => p.Files.map (fun f => f.Key))).flatten

/-! ### Retry helper (`helpers.go` lines 162-182) -/

/-- The error wrapping of the exhausted-retries return (`helpers.go` line
181); a zero `maxAttempts` wraps Go's nil error. -/
def wrapLastErr : Option String → String
  | some e => "storage: max retries exceeded: " ++ e
  | none => "storage: max retries exceeded: %!w(<nil>)"

/-- Loop of `Retry` (`helpers.go` lines 164-180).  `fn i` is the outcome of
the `i`-th invocation (`none` = success); `ctxDone i` tells whether the
cancellation signal has fired by the time the backoff wait after attempt
`i` runs its `select`.  Returns the result and the number of invocations of
`fn`. -/
def retryLoop (ctxDone : Nat → Bool) (fn : Nat → Option String) :
    Nat → Nat → Option String → Except String Unit × Nat
  | i, 0, lastErr => (.error (wrapLastErr lastErr), i)
  | i, remaining + 1, _ =>
    match fn i with
    | none => (.ok (), i + 1)
    | some e =>
      if ctxDone i then (.error ctxCanceled, i + 1)
      else retryLoop ctxDone fn (i + 1) remaining (some e)

/-- `Retry` from `helpers.go` lines 162-182. -/
def Retry (ctxDone : Nat → Bool) (maxAttempts : Nat) (fn : Nat → Option String) :
    Except String Unit × Nat :=
  retryLoop ctxDone fn 0 maxAttempts none

/-! ### Environment-variable expansion (`config.go` lines 13-14 and 56-70)

`envVarRegex` matches, with Go's leftmost-first RE2 semantics, either a
braced reference (at least one non-brace character between the braces) or a
bare reference (a letter or underscore followed greedily by word
characters); `expandEnvVars` replaces a match by the value of the named
variable when it is non-empty and keeps the match text otherwise.  The
process environment `os.Getenv` is modelled as a function from names to
values, with `""` for unset variables exactly as in Go. -/

/-- The class `[a-zA-Z_]` opening a bare reference. -/
def isWordStart (c : Char) : Bool := c.isAlpha || c == '_'

/-- The class `[a-zA-Z0-9_]` continuing a bare reference. -/
def isWordChar (c : Char) : Bool := c.isAlphanum || c == '_'

/-- Scan `[^}]*` up to the first closing brace; `some (content, rest)`
splits the input at that brace, `none` means no closing brace exists. -/
def takeUntilRBrace : List Char → Option (List Char × List Char)
  | [] => none
  | c :: rest =>
    if c == '}' then some ([], rest)
    else
      match takeUntilRBrace rest with
      | some (content, rest2) => some (c :: content, rest2)
      | none => none

theorem takeUntilRBrace_length :
    ∀ {l content rest : List Char}, takeUntilRBrace l = some (content, rest) →
      rest.length < l.length := by
  intro l
  induction l with
  | nil => intro content rest h; simp [takeUntilRBrace] at h
  | cons c cs ih =>
    intro content rest h
    rw [takeUntilRBrace] at h
    by_cases hc : c == '}'
    · rw [if_pos hc] at h
      cases h
      simp
    · rw [if_neg hc] at h
      rcases hr : takeUntilRBrace cs with _ | ⟨content2, rest2⟩ <;> rw [hr] at h
      · cases h
      · cases h
        have := ih hr
        simp only [List.length_cons]
        omega

theorem length_dropWhile_le {α : Type} (p : α → Bool) :
    ∀ l : List α, (List.dropWhile p l).length ≤ l.length := by
  intro l
  induction l with
  | nil => simp [List.dropWhile]
  | cons c cs ih => by_cases h : p c <;> simp [List.dropWhile, h] <;> omega

/-- One left-to-right, non-overlapping scan of `envVarRegex` with the
replacement function of `expandEnvVars`: at a `$`, prefer the braced
alternative, else the bare alternative, else emit the `$` and rescan from
the next character. -/
def expandChars (env : String → String) (l : List Char) : List Char :=
  match l with
  | [] => []
  | ['$'] => ['$']
  | '$' :: '{' :: rest2 =>
    match h : takeUntilRBrace rest2 with
    | some (content, rest3) =>
      if content.isEmpty then
        '$' :: expandChars env ('{' :: rest2)
      else
        (if env (String.mk content) = "" then '$' :: '{' :: (content ++ ['}'])
         else (env (String.mk content)).data) ++ expandChars env rest3
    | none => '$' :: expandChars env ('{' :: rest2)
  | '$' :: c2 :: rest2 =>
    if isWordStart c2 then
      (if env (String.mk (c2 :: rest2.takeWhile isWordChar)) = "" then
         '$' :: c2 :: rest2.takeWhile isWordChar
       else (env (String.mk (c2 :: rest2.takeWhile isWordChar))).data) ++
        expandChars env (rest2.dropWhile isWordChar)
    else
      '$' :: expandChars env (c2 :: rest2)
  | c :: rest => c :: expandChars env rest
termination_by l.length
decreasing_by
  all_goals simp only [List.length_cons]
  all_goals first
    | omega
    | { have := takeUntilRBrace_length h
        omega }
    | { have := length_dropWhile_le isWordChar rest2
        omega }

/-- `expandEnvVars` from `config.go` lines 56-70, over the raw text. -/
def expandEnvVars (env : String → String) (data : String) : String :=
  String.mk (expandChars env data.data)

/-- Concrete three-page listing backend used to witness the pagination
theorem: pages `a,b`, `c`, `d` chained through markers `m1` and `m2`. -/
def wListFn : String → String → Except String ListResult :=
  fun _ marker =>
    if marker = "" then .ok ⟨[⟨"a"⟩, ⟨"b"⟩], "m1", true⟩
    else if marker = "m1" then .ok ⟨[⟨"c"⟩], "m2", true⟩
    else .ok ⟨[⟨"d"⟩], "", false⟩

/-- The pages served by `wListFn`. -/
def wPages : List ListResult :=
  [⟨[⟨"a"⟩, ⟨"b"⟩], "m1", true⟩, ⟨[⟨"c"⟩], "m2", true⟩, ⟨[⟨"d"⟩], "", false⟩]

/-- One-disk fixture configuration for the cache-idempotence witness. -/
def wCfg : Config :=
  { Default := "", Storages := [("disk1", { Driver := "local", Options := [] })] }

/-- Driver table fixture: the driver `local` always yields backend `7`. -/
def wDrivers : List (String × Driver) := [("local", fun _ => Except.ok 7)]

/-- Manager state after the first successful resolution of `disk1` against
`wCfg` and `wDrivers`. -/
def wMgr2 : Manager := { config := wCfg, storages := [("disk1", 7)] }

/-! ## Helper lemmas -/

theorem wListFn_paginated : PaginatedBy (wListFn "p") "" wPages :=
  ⟨rfl, rfl, rfl, rfl, rfl, rfl⟩

theorem pageKeys_cons (p : ListResult) (rest : List ListResult) :
    pageKeys (p :: rest) = p.Files.map (fun f => f.Key) ++ pageKeys rest := by
  simp [pageKeys]

theorem listLoop_paginated (listFn : String → Except String ListResult) :
    ∀ (ps : List ListResult) (m : String) (acc : List String) (fuel : Nat),
      PaginatedBy listFn m ps → ps.length ≤ fuel →
      listLoop listFn fuel m acc = some (.ok (acc ++ pageKeys ps)) := by
  intro ps
  induction ps with
  | nil => intro m acc fuel h _; exact absurd h (by simp [PaginatedBy])
  | cons p rest ih =>
    intro m acc fuel h hf
    cases fuel with
    | zero => simp at hf
    | succ f =>
      cases rest with
      | nil =>
        simp only [PaginatedBy] at h
        simp [listLoop, h.1, h.2, pageKeys]
      | cons q rest2 =>
        simp only [PaginatedBy] at h
        obtain ⟨h1, h2, h3⟩ := h
        simp only [listLoop, h1, h2, if_true]
        rw [ih p.NextMarker (acc ++ p.Files.map fun f => f.Key) f h3
          (by simp only [List.length_cons] at hf ⊢; omega)]
        simp [pageKeys_cons, List.append_assoc]

theorem batchDeleteLoop_calls (sel : Nat → Bool) (deleteOp : String → Except String Unit) :
    ∀ (keys : List String) (i : Nat),
      (batchDeleteLoop (fun _ => false) sel deleteOp i keys).2 = keys := by
  intro keys
  induction keys with
  | nil => intro i; simp [batchDeleteLoop]
  | cons key rest ih =>
    intro i
    rcases hu : deleteOp key with e | u <;> simp [batchDeleteLoop, hu, ih (i + 1)]

theorem lookupGo_append_self {α : Type} (l : List (String × α)) (k : String) (v : α)
    (h : l.find? (fun kv => kv.1 == k) = none) :
    lookupGo (l ++ [(k, v)]) k = some v := by
  simp [lookupGo, List.find?_append, h]

/-- Invariant of the interleaved first-time-construction model: while the
cache is empty no factory invocation has happened and no caller has
returned; once the cache holds `b`, exactly one invocation has happened and
every returned caller has received exactly `b`. -/
def OnceInv (s : OnceState × List Phase) : Prop :=
  (s.1.cache = none → s.1.invocations = 0 ∧ ∀ p ∈ s.2, p.isDone = false) ∧
  (∀ b, s.1.cache = some b → s.1.invocations = 1 ∧
    ∀ p ∈ s.2, ∀ b2, p = .done b2 → b2 = b)

theorem onceInv_step (s : OnceState × List Phase) (i : Nat)
    (h : OnceInv s) : OnceInv (stepSys s i) := by
  obtain ⟨st, ps⟩ := s
  obtain ⟨h1, h2⟩ := h
  simp only [stepSys]
  rcases hg : ps.get? i with _ | p
  · exact ⟨h1, h2⟩
  · have hpmem : p ∈ ps := List.get?_mem hg
    rcases p with _ | _ | b0
    · rcases hc : st.cache with _ | b
      · simp only [stepOnce, hc]
        refine ⟨fun hcn => ⟨(h1 hcn).1, fun q hq => ?_⟩, fun b' hcb' => ?_⟩
        · rcases List.mem_or_eq_of_mem_set hq with hq' | rfl
          · exact (h1 hcn).2 q hq'
          · rfl
        · rw [hc] at hcb'; cases hcb'
      · simp only [stepOnce, hc]
        refine ⟨fun hcn => (by rw [hc] at hcn; cases hcn), fun b' hcb' => ?_⟩
        have hbb : b = b' := by rw [hc] at hcb'; injection hcb'
        refine ⟨(h2 b' hcb').1, fun q hq b2 hq2 => ?_⟩
        rcases List.mem_or_eq_of_mem_set hq with hq' | rfl
        · exact (h2 b' hcb').2 q hq' b2 hq2
        · injection hq2 with hb2; subst hb2; exact hbb
    · rcases hc : st.cache with _ | b
      · simp only [stepOnce, hc]
        obtain ⟨hi0, hnd⟩ := h1 hc
        refine ⟨fun hcn => (by cases hcn), fun b' hcb' => ?_⟩
        have hb' : b' = st.invocations := by injection hcb' with hh; exact hh.symm
        refine ⟨show st.invocations + 1 = 1 by rw [hi0], fun q hq b2 hq2 => ?_⟩
        rcases List.mem_or_eq_of_mem_set hq with hq' | rfl
        · have := hnd q hq'
          rw [hq2] at this
          simp [Phase.isDone] at this
        · injection hq2 with hb2; rw [← hb2]; exact hb'.symm
      · simp only [stepOnce, hc]
        refine ⟨fun hcn => (by rw [hc] at hcn; cases hcn), fun b' hcb' => ?_⟩
        have hbb : b = b' := by rw [hc] at hcb'; injection hcb'
        refine ⟨(h2 b' hcb').1, fun q hq b2 hq2 => ?_⟩
        rcases List.mem_or_eq_of_mem_set hq with hq' | rfl
        · exact (h2 b' hcb').2 q hq' b2 hq2
        · injection hq2 with hb2; subst hb2; exact hbb
    · simp only [stepOnce]
      refine ⟨fun hcn => ?_, fun b' hcb' => ?_⟩
      · have := (h1 hcn).2 _ hpmem
        simp [Phase.isDone] at this
      · refine ⟨(h2 b' hcb').1, fun q hq b2 hq2 => ?_⟩
        rcases List.mem_or_eq_of_mem_set hq with hq' | rfl
        · exact (h2 b' hcb').2 q hq' b2 hq2
        · injection hq2 with hb2
          subst hb2
          exact (h2 b' hcb').2 _ hpmem b0 rfl

theorem onceInv_run (n : Nat) (sched : List Nat) : OnceInv (runSched n sched) := by
  rw [runSched]
  have hinit : OnceInv ({ cache := none, invocations := 0 }, List.replicate n .start) := by
    refine ⟨fun _ => ⟨rfl, fun p hp => ?_⟩, fun b hb => by cases hb⟩
    rw [List.eq_of_mem_replicate hp]
    rfl
  generalize hs : (({ cache := none, invocations := 0 } : OnceState),
    List.replicate n Phase.start) = s at hinit
  clear hs
  induction sched generalizing s with
  | nil => exact hinit
  | cons a as ih => exact ih _ (onceInv_step _ a hinit)

theorem runSched_length (n : Nat) (sched : List Nat) :
    (runSched n sched).2.length = n := by
  rw [runSched]
  have : ∀ s : OnceState × List Phase,
      (sched.foldl stepSys s).2.length = s.2.length := by
    intro s
    induction sched generalizing s with
    | nil => rfl
    | cons a as ih =>
      rw [List.foldl_cons, ih]
      obtain ⟨st, ps⟩ := s
      simp only [stepSys]
      rcases hg : ps.get? a with _ | p
      · rfl
      · simp [List.length_set]
  rw [this]
  exact List.length_replicate n _

theorem batchUploadLoop_card (ctxDone sel : Nat → Bool)
    (upload : BatchUploadItem → Except String UploadResult) :
    ∀ (items : List BatchUploadItem) (i : Nat),
      (batchUploadLoop ctxDone sel upload i items).1.Succeeded.length +
        (batchUploadLoop ctxDone sel upload i items).1.Failed.length = items.length := by
  intro items
  induction items with
  | nil => intro i; simp [batchUploadLoop]
  | cons item rest ih =>
    intro i
    have hr := ih (i + 1)
    simp only [batchUploadLoop]
    by_cases h : ctxDone i && sel i
    · simp [h, List.length_cons]
      omega
    · rcases hu : upload item with e | res <;> simp [h, hu, List.length_cons] <;> omega

theorem batchDeleteLoop_card (ctxDone sel : Nat → Bool)
    (deleteOp : String → Except String Unit) :
    ∀ (keys : List String) (i : Nat),
      (batchDeleteLoop ctxDone sel deleteOp i keys).1.Succeeded.length +
        (batchDeleteLoop ctxDone sel deleteOp i keys).1.Failed.length = keys.length := by
  intro keys
  induction keys with
  | nil => intro i; simp [batchDeleteLoop]
  | cons key rest ih =>
    intro i
    have hr := ih (i + 1)
    simp only [batchDeleteLoop]
    by_cases h : ctxDone i && sel i
    · simp [h, List.length_cons]
      omega
    · rcases hu : deleteOp key with e | u <;> simp [h, hu, List.length_cons] <;> omega

theorem batchUploadLoop_precancelled (sel : Nat → Bool)
    (upload : BatchUploadItem → Except String UploadResult) :
    ∀ (items : List BatchUploadItem) (i : Nat),
      batchUploadLoop (fun _ => true) (fun _ => true) upload i items =
        (⟨[], items.map (fun it => ⟨it.Key, ctxCanceled⟩)⟩, []) := by
  intro items
  induction items with
  | nil => intro i; simp [batchUploadLoop]
  | cons item rest ih => intro i; simp [batchUploadLoop, ih (i + 1)]

theorem batchDeleteLoop_precancelled (sel : Nat → Bool)
    (deleteOp : String → Except String Unit) :
    ∀ (keys : List String) (i : Nat),
      batchDeleteLoop (fun _ => true) (fun _ => true) deleteOp i keys =
        (⟨[], keys.map (fun k => ⟨k, ctxCanceled⟩)⟩, []) := by
  intro keys
  induction keys with
  | nil => intro i; simp [batchDeleteLoop]
  | cons key rest ih => intro i; simp [batchDeleteLoop, ih (i + 1)]

theorem find?_eq_none_of_lookupGo {α : Type} (l : List (String × α)) (k : String)
    (h : lookupGo l k = none) : l.find? (fun kv => kv.1 == k) = none := by
  simp only [lookupGo] at h
  rcases hf : l.find? (fun kv => kv.1 == k) with _ | kv
  · exact hf
  · rw [hf] at h; cases h

theorem lookupGo_append_left {α : Type} (l1 l2 : List (String × α)) (k : String) (v : α)
    (h : lookupGo l1 k = some v) : lookupGo (l1 ++ l2) k = some v := by
  simp only [lookupGo, List.find?_append] at *
  rcases hf : l1.find? (fun kv => kv.1 == k) with _ | kv
  · rw [hf] at h; cases h
  · rw [hf] at h ⊢; simpa using h

theorem Disk_cache_hit (drivers : List (String × Driver)) (m : Manager)
    (name nm : String) (b : Backend)
    (hnm : (if name = "" then m.config.Default else name) = nm)
    (hne : nm ≠ "") (hcache : lookupGo m.storages nm = some b) :
    Manager.Disk drivers m name = (.ok (b, m), 0) := by
  simp only [Manager.Disk, hnm, if_neg hne, hcache]

theorem Disk_cases (drivers : List (String × Driver)) (m : Manager) (name : String)
    (b : Backend) (m2 : Manager) (k : Nat)
    (h : Manager.Disk drivers m name = (.ok (b, m2), k)) :
    m2.config = m.config ∧
    (if name = "" then m.config.Default else name) ≠ "" ∧
    lookupGo m2.storages (if name = "" then m.config.Default else name) = some b ∧
    (m2.storages = m.storages ∨
      m2.storages = m.storages ++
        [((if name = "" then m.config.Default else name), b)]) := by
  simp only [Manager.Disk] at h
  by_cases hz : (if name = "" then m.config.Default else name) = ""
  · rw [if_pos hz] at h
    simp at h
  · rw [if_neg hz] at h
    rcases hl : lookupGo m.storages (if name = "" then m.config.Default else name)
      with _ | s
    · simp only [hl] at h
      rcases hcfg : lookupGo m.config.Storages
        (if name = "" then m.config.Default else name) with _ | cfg
      · simp only [hcfg] at h; simp at h
      · simp only [hcfg] at h
        rcases hdr : lookupDriver drivers cfg.Driver with _ | d
        · simp only [hdr] at h; simp at h
        · simp only [hdr] at h
          rcases hop : d cfg.Options with e | s
          · simp only [hop] at h; simp at h
          · simp only [hop, Prod.mk.injEq, Except.ok.injEq] at h
            obtain ⟨⟨hb, hm⟩, hk⟩ := h
            subst hb
            subst hm
            refine ⟨rfl, hz, ?_, Or.inr rfl⟩
            exact lookupGo_append_self _ _ _ (find?_eq_none_of_lookupGo _ _ hl)
    · simp only [hl, Prod.mk.injEq, Except.ok.injEq] at h
      obtain ⟨⟨hb, hm⟩, hk⟩ := h
      subst hb
      subst hm
      exact ⟨rfl, hz, hl, Or.inl rfl⟩

theorem callDisk_preserves (drivers : List (String × Driver)) (m : Manager)
    (name2 nm : String) (b : Backend)
    (hcache : lookupGo m.storages nm = some b) :
    (callDisk drivers m name2).config = m.config ∧
    lookupGo (callDisk drivers m name2).storages nm = some b := by
  rcases hd : (Manager.Disk drivers m name2).1 with e | ⟨b2, m2⟩ <;>
    simp only [callDisk, hd]
  · exact ⟨by trivial, hcache⟩
  · have h' : Manager.Disk drivers m name2 =
        (.ok (b2, m2), (Manager.Disk drivers m name2).2) := by
      rw [← hd]
    obtain ⟨hcfg, _, _, hst⟩ := Disk_cases drivers m name2 b2 m2 _ h'
    rcases hst with hs | hs
    · exact ⟨hcfg, by rw [hs]; exact hcache⟩
    · exact ⟨hcfg, by rw [hs]; exact lookupGo_append_left _ _ _ _ hcache⟩

/-! ## Claim theorems -/

/-- C1: for every list of batch items and every concurrency value `C ≥ 1`
(and in fact any scheduling of admission-time cancellation choices and any
per-item operation outcomes), `BatchUpload` and `BatchDelete` return a
result in which the number of succeeded entries plus the number of failed
entries equals the number of input items. -/
theorem Batch_cardinality (ctxDone sel : Nat → Bool)
    (upload : BatchUploadItem → Except String UploadResult)
    (deleteOp : String → Except String Unit)
    (items : List BatchUploadItem) (keys : List String) (concurrency : Int)
    (hc : 1 ≤ concurrency) :
    (BatchUpload ctxDone sel upload items concurrency).1.Succeeded.length +
      (BatchUpload ctxDone sel upload items concurrency).1.Failed.length
        = items.length ∧
    (BatchDelete ctxDone sel deleteOp keys concurrency).1.Succeeded.length +
      (BatchDelete ctxDone sel deleteOp keys concurrency).1.Failed.length
        = keys.length :=
  ⟨batchUploadLoop_card ctxDone sel upload items 0,
   batchDeleteLoop_card ctxDone sel deleteOp keys 0⟩

/-- Witness for C1 at a concrete three-item batch with concurrency 2, one
item cancelled at admission, one failing and one succeeding. -/
theorem Batch_cardinality_witness :
    (1 : Int) ≤ 2 ∧
    (BatchUpload (fun i => i == 0) (fun _ => true)
        (fun it => if it.Key == "b" then .error "boom" else .ok ⟨it.Key⟩)
        [⟨"a"⟩, ⟨"b"⟩, ⟨"c"⟩] 2).1.Succeeded.length +
      (BatchUpload (fun i => i == 0) (fun _ => true)
        (fun it => if it.Key == "b" then .error "boom" else .ok ⟨it.Key⟩)
        [⟨"a"⟩, ⟨"b"⟩, ⟨"c"⟩] 2).1.Failed.length = 3 :=
  ⟨by decide,
   (Batch_cardinality (fun i => i == 0) (fun _ => true)
      (fun it => if it.Key == "b" then .error "boom" else .ok ⟨it.Key⟩)
      (fun _ => .ok ()) [⟨"a"⟩, ⟨"b"⟩, ⟨"c"⟩] [] 2 (by decide)).1⟩

/-- C3 counterexample: the cancellation signal has fired before any item is
admitted (`ctxDone` is constantly true), yet in the execution where the Go
`select` resolves in favour of the ready semaphore branch (`sel` constantly
false) the single item is admitted, the upload operation is invoked once
(the call list is `["a"]`), and the batch result has zero failed entries
instead of one. -/
theorem Batch_precancelled_cex :
    BatchUpload (fun _ => true) (fun _ => false)
        (fun it => .ok ⟨it.Key⟩) [⟨"a"⟩] 1 =
      ({ Succeeded := [⟨"a"⟩], Failed := [] }, ["a"]) := rfl

/-- C3 (amended): if the cancellation signal has fired before any item is
admitted, then in every execution in which the admission `select` resolves
the cancellation branch for every item (the Go `select` may instead admit
an item whose semaphore slot is also ready), the batch result has
`|failed| = N` with every failure carrying the cancellation error, no item
succeeds, and the per-item operation is invoked zero times — for
`BatchUpload` and `BatchDelete` alike. -/
theorem Batch_precancelled_all_fail
    (upload : BatchUploadItem → Except String UploadResult)
    (deleteOp : String → Except String Unit)
    (items : List BatchUploadItem) (keys : List String) (concurrency : Int) :
    BatchUpload (fun _ => true) (fun _ => true) upload items concurrency =
      ({ Succeeded := [], Failed := items.map (fun it => ⟨it.Key, ctxCanceled⟩) }, []) ∧
    BatchDelete (fun _ => true) (fun _ => true) deleteOp keys concurrency =
      ({ Succeeded := [], Failed := keys.map (fun k => ⟨k, ctxCanceled⟩) }, []) :=
  ⟨batchUploadLoop_precancelled (fun _ => true) upload items 0,
   batchDeleteLoop_precancelled (fun _ => true) deleteOp keys 0⟩

/-- C5 (amended): `parseConfigMap` treats every non-`driver` sibling key of
a disk entry as an option, uniformly: when no `options` sub-key exists this
resolves the flattened shape as specified, and when an `options` sub-key is
present it is kept as an ordinary option named `options` (its contents stay
nested under that key) rather than being used verbatim as the options map. -/
theorem parseConfigMap_nonDriver_siblings (name d : String) (disk : GoMap)
    (hd : lookupGo disk "driver" = some (GoVal.str d)) :
    parseConfigMap [("disks", GoVal.map [(name, GoVal.map disk)])] =
      .ok { Default := "",
            Storages := [(name,
              { Driver := d, Options := disk.filter (fun kv => kv.1 != "driver") })] } := by
  have hdisk : parseDisk name disk =
      .ok { Driver := d, Options := disk.filter (fun kv => kv.1 != "driver") } := by
    simp [parseDisk, hd, GoVal.asStr]
  have hdisks : parseDisks [(name, GoVal.map disk)] =
      .ok [(name, { Driver := d, Options := disk.filter (fun kv => kv.1 != "driver") })] := by
    simp [parseDisks, GoVal.asMap, hdisk]
  simp [parseConfigMap, lookupGo, List.find?, hdisks, GoVal.asMap]

/-- Witness for C5's amended theorem at a flattened disk entry. -/
theorem parseConfigMap_nonDriver_siblings_witness :
    lookupGo [("driver", GoVal.str "local"), ("root", GoVal.str "./uploads")] "driver" =
      some (GoVal.str "local") ∧
    parseConfigMap [("disks", GoVal.map [("local", GoVal.map
        [("driver", GoVal.str "local"), ("root", GoVal.str "./uploads")])])] =
      .ok { Default := "",
            Storages := [("local",
              { Driver := "local",
                Options := [("driver", GoVal.str "local"),
                  ("root", GoVal.str "./uploads")].filter (fun kv => kv.1 != "driver") })] } :=
  ⟨rfl, parseConfigMap_nonDriver_siblings "local" "local" _ rfl⟩

/-- C5 counterexample: a disk entry carrying an `options` sub-key resolves
to an options map whose single entry is the key `options` with the nested
map as its value — not to the verbatim contents of the sub-key. -/
theorem parseConfigMap_nested_options_cex :
    parseConfigMap [("disks", GoVal.map [("d1", GoVal.map
        [("driver", GoVal.str "local"),
         ("options", GoVal.map [("root", GoVal.str "/tmp")])])])] =
      .ok { Default := "",
            Storages := [("d1",
              { Driver := "local",
                Options := [("options", GoVal.map [("root", GoVal.str "/tmp")])] })] } ∧
    ([("options", GoVal.map [("root", GoVal.str "/tmp")])] : GoMap) ≠
      [("root", GoVal.str "/tmp")] := by
  refine ⟨rfl, fun h => ?_⟩
  injection h with h1 _
  injection h1 with h2 _
  exact absurd h2 (by decide)

/-- C2: for every number `n ≥ 1` of concurrent callers of `Manager.Disk`
on a disk name that has never been constructed, and every interleaving
(schedule) of their atomic steps under the manager's read/write lock, once
every caller has returned the factory has been invoked exactly once and
every caller has received the identical backend reference. -/
theorem Disk_concurrent_once (n : Nat) (sched : List Nat)
    (hn : 1 ≤ n)
    (hdone : (runSched n sched).2.all Phase.isDone = true) :
    (runSched n sched).1.invocations = 1 ∧
    ∃ b, ∀ p ∈ (runSched n sched).2, p = Phase.done b := by
  obtain ⟨h1, h2⟩ := onceInv_run n sched
  have hlen := runSched_length n sched
  rcases hc : (runSched n sched).1.cache with _ | b
  · obtain ⟨p0, hp0⟩ : ∃ p, p ∈ (runSched n sched).2 := by
      refine List.exists_mem_of_ne_nil _ fun hnil => ?_
      rw [hnil] at hlen
      simp at hlen
      omega
    have hnd := (h1 hc).2 p0 hp0
    have hd := List.all_eq_true.mp hdone p0 hp0
    rw [hnd] at hd
    cases hd
  · refine ⟨(h2 b hc).1, b, fun p hp => ?_⟩
    have hd := List.all_eq_true.mp hdone p hp
    rcases p with _ | _ | b2
    · simp [Phase.isDone] at hd
    · simp [Phase.isDone] at hd
    · rw [(h2 b hc).2 _ hp b2 rfl]

/-- Witness for C2: two callers; caller 0 runs its fast-path check, then
constructs under the write lock; caller 1 then checks and hits the cache. -/
theorem Disk_concurrent_once_witness :
    (1 ≤ 2 ∧ (runSched 2 [0, 0, 1]).2.all Phase.isDone = true) ∧
    (runSched 2 [0, 0, 1]).1.invocations = 1 :=
  ⟨⟨by decide, by decide⟩,
   (Disk_concurrent_once 2 [0, 0, 1] (by decide) (by decide)).1⟩

/-- C8: once `Manager.Disk` has returned a backend successfully for a
name, every subsequent `Disk` call for that name — after any sequence of
intervening `Disk` calls against the same manager and before `Close` —
returns the identical backend reference and performs zero factory
invocations. -/
theorem Disk_idempotent_after_success (drivers : List (String × Driver))
    (m : Manager) (name : String) (b : Backend) (m2 : Manager) (k : Nat)
    (h : Manager.Disk drivers m name = (.ok (b, m2), k)) :
    ∀ calls : List String,
      Manager.Disk drivers (runCalls drivers m2 calls) name =
        (.ok (b, runCalls drivers m2 calls), 0) := by
  obtain ⟨hcfg, hne, hcache, _⟩ := Disk_cases drivers m name b m2 k h
  intro calls
  have key : ∀ (cs : List String) (m3 : Manager),
      m3.config = m.config →
      lookupGo m3.storages (if name = "" then m.config.Default else name) = some b →
      (runCalls drivers m3 cs).config = m.config ∧
      lookupGo (runCalls drivers m3 cs).storages
        (if name = "" then m.config.Default else name) = some b := by
    intro cs
    induction cs with
    | nil => intro m3 hc1 hc2; exact ⟨hc1, hc2⟩
    | cons c cs2 ih =>
      intro m3 hc1 hc2
      have hp := callDisk_preserves drivers m3 c
        (if name = "" then m.config.Default else name) b hc2
      have hstep : runCalls drivers m3 (c :: cs2) =
          runCalls drivers (callDisk drivers m3 c) cs2 := rfl
      rw [hstep]
      exact ih (callDisk drivers m3 c) (hp.1.trans hc1) hp.2
  obtain ⟨hc1, hc2⟩ := key calls m2 hcfg hcache
  exact Disk_cache_hit drivers (runCalls drivers m2 calls) name
    (if name = "" then m.config.Default else name) b (by rw [hc1]) hne hc2

/-- Witness for C8: a one-disk configuration whose factory yields backend
`7`; after the first successful call and two further calls (a repeat and a
miss), the repeated call returns `7` from the cache with no factory
invocation. -/
theorem Disk_idempotent_after_success_witness :
    Manager.Disk wDrivers (NewManager wCfg) "disk1" = (.ok (7, wMgr2), 1) ∧
    Manager.Disk wDrivers (runCalls wDrivers wMgr2 ["disk1", "nope"]) "disk1" =
      (.ok (7, runCalls wDrivers wMgr2 ["disk1", "nope"]), 0) :=
  ⟨rfl,
   Disk_idempotent_after_success wDrivers (NewManager wCfg) "disk1" 7 wMgr2 1
     rfl ["disk1", "nope"]⟩

/-- C4: `expandEnvVars` applied to `"${FOO}"` returns it unchanged when the
environment variable `FOO` is unset or empty (Go's `os.Getenv` yields `""`
in both cases), and returns `"bar"` when `FOO=bar`; applied to
`"$FOO_suffix"` it looks up the variable named `FOO_suffix` — the greedy
bare-token match over word characters — not `FOO`: the result is the value
of `FOO_suffix` whenever that value is non-empty, whatever `FOO` holds. -/
theorem expandEnvVars_spec (env : String → String) :
    (env "FOO" = "" → expandEnvVars env "${FOO}" = "${FOO}") ∧
    (env "FOO" = "bar" → expandEnvVars env "${FOO}" = "bar") ∧
    (∀ v, v ≠ "" → env "FOO_suffix" = v → expandEnvVars env "$FOO_suffix" = v) := by
  refine ⟨fun h => ?_, fun h => ?_, fun v hv he => ?_⟩
  · show String.mk (expandChars env "${FOO}".data) = "${FOO}"
    rw [show "${FOO}".data = ['$', '{', 'F', 'O', 'O', '}'] from rfl]
    simp [expandChars, takeUntilRBrace, h]
  · show String.mk (expandChars env "${FOO}".data) = "bar"
    rw [show "${FOO}".data = ['$', '{', 'F', 'O', 'O', '}'] from rfl]
    simp [expandChars, takeUntilRBrace, h]
  · show String.mk (expandChars env "$FOO_suffix".data) = v
    rw [show "$FOO_suffix".data =
      ['$', 'F', 'O', 'O', '_', 's', 'u', 'f', 'f', 'i', 'x'] from rfl]
    simp [expandChars, isWordStart, isWordChar, he, hv]

/-- Witness for C4 at concrete environments: `FOO=bar` and
`FOO_suffix=qux` for the substitution cases, an empty environment for the
unset case. -/
theorem expandEnvVars_spec_witness :
    expandEnvVars
        (fun n => if n = "FOO" then "bar"
          else if n = "FOO_suffix" then "qux" else "") "${FOO}" = "bar" ∧
    expandEnvVars
        (fun n => if n = "FOO" then "bar"
          else if n = "FOO_suffix" then "qux" else "") "$FOO_suffix" = "qux" ∧
    expandEnvVars (fun _ => "") "${FOO}" = "${FOO}" :=
  ⟨(expandEnvVars_spec _).2.1 rfl,
   (expandEnvVars_spec _).2.2 "qux" (by decide) rfl,
   (expandEnvVars_spec _).1 rfl⟩

/-- C6 counterexample: registering the already-bound driver name `local`
does not fail with a reportable error value — the Go function returns
nothing and panics, so its outcome is a panic with the duplicate-driver
message and is never an updated registry. -/
theorem Register_duplicate_cex :
    Register [("local", fun _ => .ok 0)] "local" (some (fun _ => .ok 1)) =
      .panicked "storage: Register called twice for driver local" ∧
    ∀ reg2, Register [("local", fun _ => .ok 0)] "local" (some (fun _ => .ok 1)) ≠
      .ok reg2 := by
  refine ⟨rfl, fun reg2 h => ?_⟩
  rw [show Register [("local", fun _ => .ok 0)] "local" (some (fun _ => .ok 1)) =
    .panicked "storage: Register called twice for driver local" from rfl] at h
  exact RegOutcome.noConfusion h

/-- C6 (amended): registering a driver name that is already bound panics
with the duplicate-driver message and never yields an updated registry (so
it never silently overwrites the existing binding); registering a name for
the first time and then looking it up succeeds and returns the original
factory, which `Open` then invokes. -/
theorem Register_unique_lookup (drivers : List (String × Driver))
    (name : String) (d d2 : Driver) :
    (lookupDriver drivers name = none →
      ∃ reg2, Register drivers name (some d) = .ok reg2 ∧
        lookupDriver reg2 name = some d ∧
        (∀ cfg, Open reg2 name cfg = d cfg)) ∧
    ((lookupDriver drivers name).isSome →
      Register drivers name (some d2) =
        .panicked ("storage: Register called twice for driver " ++ name) ∧
      ∀ reg2, Register drivers name (some d2) ≠ .ok reg2) := by
  constructor
  · intro hfree
    have hfind : drivers.find? (fun kv => kv.1 == name) = none := by
      simp only [lookupDriver, lookupGo] at hfree
      rcases hf : drivers.find? (fun kv => kv.1 == name) with _ | kv
      · exact hf
      · rw [hf] at hfree; simp at hfree
    refine ⟨drivers ++ [(name, d)], ?_, ?_, ?_⟩
    · simp [Register, hfind]
    · exact lookupGo_append_self drivers name d hfind
    · intro cfg
      simp [Open, lookupDriver, lookupGo_append_self drivers name d hfind]
  · intro hbound
    have hfind : (drivers.find? (fun kv => kv.1 == name)).isSome := by
      simp only [lookupDriver, lookupGo] at hbound
      rcases hf : drivers.find? (fun kv => kv.1 == name) with _ | kv
      · rw [hf] at hbound; simp at hbound
      · simp [hf]
    constructor
    · simp [Register, hfind]
    · intro reg2 h
      simp [Register, hfind] at h

/-- Witness for C6's amended theorem on a one-entry registry. -/
theorem Register_unique_lookup_witness :
    (lookupDriver [] "local" = none →
      ∃ reg2, Register [] "local" (some (fun _ => .ok 0)) = .ok reg2 ∧
        lookupDriver reg2 "local" = some (fun _ => .ok 0) ∧
        (∀ cfg, Open reg2 "local" cfg = (fun (_ : GoMap) => Except.ok 0) cfg)) ∧
    lookupDriver [] "local" = none :=
  ⟨(Register_unique_lookup [] "local" (fun _ => .ok 0) (fun _ => .ok 1)).1, rfl⟩

/-- C7: with a non-cancelled context, `Retry` with 3 attempts over a
function that fails on its first two invocations and succeeds on the third
returns success having invoked the function exactly 3 times; `Retry` with 2
attempts over an always-failing function invokes it exactly 2 times and
returns the last underlying error wrapped with the max-retries-exceeded
marker. -/
theorem Retry_spec (ctxDone : Nat → Bool) (fn : Nat → Option String)
    (e0 e1 : String) (g : Nat → String)
    (hctx : ∀ i, ctxDone i = false)
    (h0 : fn 0 = some e0) (h1 : fn 1 = some e1) (h2 : fn 2 = none) :
    Retry ctxDone 3 fn = (.ok (), 3) ∧
    Retry ctxDone 2 (fun i => some (g i)) =
      (.error ("storage: max retries exceeded: " ++ g 1), 2) := by
  constructor
  · show retryLoop ctxDone fn 0 3 none = (.ok (), 3)
    rw [retryLoop]; simp only [h0, hctx 0]; simp
    rw [retryLoop]; simp only [h1, hctx 1]; simp
    rw [retryLoop]; simp [h2]
  · show retryLoop ctxDone (fun i => some (g i)) 0 2 none = _
    rw [retryLoop]; simp only [hctx 0]; simp
    rw [retryLoop]; simp only [hctx 1]; simp
    rw [retryLoop]; simp [wrapLastErr]

/-- Witness for C7: fails twice then succeeds, and an always-failing
function, under a never-cancelled context. -/
theorem Retry_spec_witness :
    Retry (fun _ => false) 3 (fun i => if i < 2 then some "boom" else none) =
      (.ok (), 3) ∧
    Retry (fun _ => false) 2 (fun i => some ((fun _ => "always") i)) =
      (.error ("storage: max retries exceeded: " ++ (fun _ => "always") 1), 2) :=
  Retry_spec (fun _ => false) (fun i => if i < 2 then some "boom" else none)
    "boom" "boom" (fun _ => "always") (fun _ => rfl) rfl rfl rfl

/-- C9: `DeleteAll` requires the extended List capability and fails with
`ErrNotImplemented` against a backend not providing it; against a backend
whose listing is paginated it follows the marker cursor until the backend
reports no more pages and then issues exactly one delete per key in the
union of all pages' keys via a single batch-delete pass: the invoked delete
keys are exactly the concatenation of the pages' keys, each occurring once
when the pages are duplicate-free. -/
theorem DeleteAll_spec (st : StorageModel)
    (listFn : String → String → Except String ListResult)
    (ps : List ListResult) (pfx : String) (sel : Nat → Bool) (concurrency : Int)
    (hadv : st.advList = some listFn)
    (hpag : PaginatedBy (listFn pfx) "" ps)
    (hne : pageKeys ps ≠ []) :
    (∀ st2 : StorageModel, st2.advList = none →
      DeleteAll (fun _ => false) sel st2 pfx concurrency ps.length =
        some (.error ErrNotImplemented)) ∧
    DeleteAll (fun _ => false) sel st pfx concurrency ps.length =
      some (.ok ((BatchDelete (fun _ => false) sel st.deleteOp
        (pageKeys ps) concurrency).1, pageKeys ps)) ∧
    ((pageKeys ps).Nodup → ∀ k ∈ pageKeys ps, (pageKeys ps).count k = 1) := by
  refine ⟨fun st2 h2 => by simp [DeleteAll, h2], ?_, fun hnd k hk =>
    List.count_eq_one_of_mem hnd hk⟩
  have hl := listLoop_paginated (listFn pfx) ps "" [] ps.length hpag le_rfl
  have hk : (pageKeys ps).isEmpty = false := by
    rcases he : pageKeys ps with _ | ⟨k, ks⟩
    · exact absurd he hne
    · rfl
  have hc : (BatchDelete (fun _ => false) sel st.deleteOp
      (pageKeys ps) concurrency).2 = pageKeys ps :=
    batchDeleteLoop_calls sel st.deleteOp (pageKeys ps) 0
  simp only [DeleteAll, hadv, hl, List.nil_append, hk, Bool.false_eq_true,
    if_false, Option.some.injEq]
  rw [show (BatchDelete (fun _ => false) sel st.deleteOp (pageKeys ps) concurrency) =
    ((BatchDelete (fun _ => false) sel st.deleteOp (pageKeys ps) concurrency).1,
     (BatchDelete (fun _ => false) sel st.deleteOp (pageKeys ps) concurrency).2) from rfl,
    hc]

/-- Witness for C9 against the concrete three-page backend `wListFn`: the
deletes issued are exactly the four keys of the three pages. -/
theorem DeleteAll_spec_witness :
    DeleteAll (fun _ => false) (fun _ => true)
        ⟨fun _ => .ok (), some wListFn⟩ "p" 2 3 =
      some (.ok ((BatchDelete (fun _ => false) (fun _ => true)
        (fun _ => Except.ok ()) (pageKeys wPages) 2).1, pageKeys wPages)) :=
  (DeleteAll_spec ⟨fun _ => .ok (), some wListFn⟩ wListFn wPages "p"
    (fun _ => true) 2 rfl wListFn_paginated (by simp [pageKeys, wPages])).2.1

/-- C10: if `Setup` fails to parse the configuration map, the process-wide
default manager holder is left exactly as it was: a previously installed
default manager remains installed and the new configuration is not applied
at all. -/
theorem Setup_error_preserves_default (defaultMgr : Option Manager)
    (m : GoMap) (e : String) (h : parseConfigMap m = .error e) :
    Setup defaultMgr m = (.error e, defaultMgr) := by
  simp [Setup, h]

/-- Witness for C10: a map with neither `disks` nor `storages` leaves an
installed manager untouched. -/
theorem Setup_error_preserves_default_witness :
    parseConfigMap [("default", GoVal.str "local")] =
      .error "storage: no disks or storages found in config" ∧
    Setup (some (NewManager { Default := "x", Storages := [] }))
        [("default", GoVal.str "local")] =
      (.error "storage: no disks or storages found in config",
       some (NewManager { Default := "x", Storages := [] })) :=
  ⟨rfl, Setup_error_preserves_default _ _ _ rfl⟩

end GoStorage
